import Mathlib

/-!
Verification of the chunked content-persistence core of pimp-my-api-cli.

The development shallowly embeds the JavaScript source:

* FileManager (src/utils/fileManager.js): analyzeContent, splitContent,
  getChunkPath, writeSingleFile, clearCache over an in-memory cache map.
* ErrorHandler (src/utils/errorHandler.js): isRetryable, enhanceError and
  withRetry, modelled as a pure function from a schedule of attempt
  outcomes to a trace (result, number of invocations, sleep durations).
* ChunkManager (src/managers/chunkManager.js): updateChunkProgress,
  the chunk-writing loop of handleChunkedWrite, and cleanupOperation.

JavaScript Map objects are modelled as insertion-ordered association
lists (mapGet / mapSet / mapDelete below reproduce Map.get / Map.set /
Map.delete).  JavaScript strings are Lean Strings; String.slice is
jsSlice.  Date.now() is threaded explicitly as an integer timestamp.
-/

namespace PimpMyApi

/-- JS Map.get on an insertion-ordered association list. -/
def mapGet {α β : Type} [DecidableEq α] : List (α × β) → α → Option β
  | [], _ => none
  | (k2, v) :: rest, k => if k2 = k then some v else mapGet rest k

/-- JS Map.set: replace the value in place when the key exists, else
append a new entry at the end (insertion order preserved). -/
def mapSet {α β : Type} [DecidableEq α] : List (α × β) → α → β → List (α × β)
  | [], k, v => [(k, v)]
  | (k2, v2) :: rest, k, v =>
    if k2 = k then (k2, v) :: rest else (k2, v2) :: mapSet rest k v

/-- JS Map.delete: drop every entry with the key (there is at most one). -/
def mapDelete {α β : Type} [DecidableEq α] (m : List (α × β)) (k : α) : List (α × β) :=
  m.filter fun p => decide (p.1 ≠ k)

/-- JS String.prototype.slice(start, stop) for 0 ≤ start ≤ stop
(the only call pattern in the source): characters at positions
start, ..., stop-1, clamped to the length of the string. -/
def jsSlice (s : String) (start stop : Nat) : String :=
  String.mk ((s.data.drop start).take (stop - start))

/-- The comparison x > olderThan from FileManager.clearCache, where
olderThan may be NaN (none) because a call site passed a non-numeric
string: every comparison with NaN is false in JS. -/
def jsGtNaN (a : Int) (b : Option Int) : Bool :=
  match b with
  | some n => decide (a > n)
  | none => false

/-- Partial model of JS ToNumber on strings, sufficient for the call
sites in this repository: the empty string converts to 0, a string of
decimal digits to its value, and any other string (such as a chunk file
path) to NaN, modelled as none. -/
def jsToNumber (s : String) : Option Int :=
  if s.data = [] then some 0
  else if s.data.all Char.isDigit then
    some ((s.data.foldl (fun n c => n * 10 + (c.toNat - 48)) 0 : Nat) : Int)
  else none

/-! ## FileManager (src/utils/fileManager.js) -/

/-- this.CHUNK_SIZE = 50000. -/
def CHUNK_SIZE : Nat := 50000

/-- Result object of FileManager.analyzeContent. -/
structure ContentAnalysis where
  size : Nat
  requiresChunking : Bool
  chunks : Nat
  approachingLimit : Bool
deriving Repr, DecidableEq

/-- FileManager.analyzeContent: size is the UTF-8 byte length of the
content (new TextEncoder().encode(content).length); chunks is
Math.ceil(size / CHUNK_SIZE), written with Nat ceiling division.
The float threshold CHUNK_SIZE * 0.8 lies strictly between 40000 and
40001, so for integer sizes the comparison is size > 40000. -/
def analyzeContent (content : String) : ContentAnalysis :=
  let size := content.utf8ByteSize
  { size := size
    requiresChunking := decide (size > CHUNK_SIZE)
    chunks := (size + CHUNK_SIZE - 1) / CHUNK_SIZE
    approachingLimit := decide (size > 40000) }

/-- FileManager.splitContent: chunkSize = Math.ceil(content.length /
numChunks); the loop pushes content.slice(i*chunkSize, (i+1)*chunkSize)
for i = 0, ..., numChunks-1. -/
def splitContent (content : String) (numChunks : Nat) : List String :=
  let chunkSize := (content.length + numChunks - 1) / numChunks
  (List.range numChunks).map fun i =>
    jsSlice content (i * chunkSize) (i * chunkSize + chunkSize)

/-- FileManager.getChunkPath: split the path on every dot, pop the last
component as the extension, and rebuild stem.partN.ext. -/
def getChunkPath (originalPath : String) (index : Nat) : String :=
  let parts := originalPath.splitOn "."
  let ext := parts.getLastD ""
  let stem := String.intercalate "." parts.dropLast
  stem ++ ".part" ++ toString index ++ "." ++ ext

/-- The metadata objects that reach the cache in this repository. -/
inductive Metadata where
  | empty : Metadata
  | chunkMeta (operationId : String) (index : Nat) (isChunk : Bool) : Metadata
  | completeMeta (operationId : String) (isComplete : Bool) (totalChunks : Nat) : Metadata
deriving Repr, DecidableEq

/-- One fileCache entry: {content, timestamp, metadata}. -/
structure CacheEntry where
  content : String
  timestamp : Int
  metadata : Metadata
deriving Repr, DecidableEq

/-- Return object of FileManager.writeSingleFile:
{path, size: content.length, cached: true, timestamp}.  Note the
object carries neither the content nor the metadata. -/
structure WriteResult where
  path : String
  size : Nat
  cached : Bool
  timestamp : Int
deriving Repr, DecidableEq

/-- The FileManager instance state: this.fileCache. -/
structure FMState where
  fileCache : List (String × CacheEntry)
deriving Repr, DecidableEq

/-- FileManager.writeSingleFile: cache the entry under the path with
the current timestamp and return {path, size: content.length,
cached: true, timestamp}. -/
def writeSingleFile (fm : FMState) (path content : String) (meta : Metadata)
    (now : Int) : WriteResult × FMState :=
  ({ path := path, size := content.length, cached := true, timestamp := now },
   { fileCache := mapSet fm.fileCache path
      { content := content, timestamp := now, metadata := meta } })

/-- The entry scan of FileManager.clearCache: delete every entry with
now - entry.timestamp > olderThan; olderThan is an Option Int because
one call site passes a path string whose numeric value is NaN. -/
def clearCacheEntries (now : Int) (olderThan : Option Int) :
    List (String × CacheEntry) → List (String × CacheEntry)
  | [] => []
  | (p, e) :: rest =>
    if jsGtNaN (now - e.timestamp) olderThan then clearCacheEntries now olderThan rest
    else (p, e) :: clearCacheEntries now olderThan rest

/-- FileManager.clearCache(olderThan). -/
def clearCache (fm : FMState) (olderThan : Option Int) (now : Int) : FMState :=
  { fileCache := clearCacheEntries now olderThan fm.fileCache }

/-- The default value of the olderThan parameter of clearCache
(one hour in milliseconds). -/
def CLEAR_CACHE_DEFAULT : Int := 3600000

/-! ## Error taxonomy (src/utils/errors.js) and ErrorHandler
(src/utils/errorHandler.js) -/

/-- The class of a thrown error: RetryableError, ValidationError and
WorkerError extend Error directly (none extends another); generic
covers plain Error and any other value with no special class. -/
inductive ErrKind where
  | retryable : ErrKind
  | validation : ErrKind
  | worker : ErrKind
  | generic : ErrKind
deriving Repr, DecidableEq

/-- The error context object: a list of key/value pairs; spreading
{...context, finalAttempt: true} appends the finalAttempt key. -/
abbrev ErrCtx : Type := List (String × String)

/-- A thrown JS error as the ErrorHandler observes it: its class
(kind), message, the details list a ValidationError carries, the
status and code fields consulted by isRetryable, and the context and
timestamp fields that enhanceError assigns. -/
structure JsError where
  kind : ErrKind
  message : String
  details : List String := []
  status : Option Int := none
  code : Option String := none
  context : ErrCtx := []
  timestamp : Option Int := none
deriving Repr, DecidableEq

/-- this.maxRetries, this.baseDelay, this.maxDelay. -/
structure RetryConfig where
  maxRetries : Nat
  baseDelay : Nat
  maxDelay : Nat
deriving Repr, DecidableEq

/-- The defaults {maxRetries: 3, baseDelay: 1000, maxDelay: 10000}. -/
def defaultRetryConfig : RetryConfig :=
  { maxRetries := 3, baseDelay := 1000, maxDelay := 10000 }

/-- ErrorHandler.isRetryable, with the instanceof tests in source
order: RetryableError yes, ValidationError no, status >= 500 yes
(false when the status field is absent), code ECONNRESET or ETIMEDOUT
yes, anything else no. -/
def isRetryable (e : JsError) : Bool :=
  if e.kind = ErrKind.retryable then true
  else if e.kind = ErrKind.validation then false
  else if (match e.status with | some s => decide (s ≥ 500) | none => false) then true
  else if e.code = some "ECONNRESET" then true
  else if e.code = some "ETIMEDOUT" then true
  else false

/-- ErrorHandler.enhanceError: reuse the error when it already is a
WorkerError, otherwise build new WorkerError(error.message) - a fresh
object that carries only the message (details, status and code are not
copied); then assign enhanced.context = context and
enhanced.timestamp = Date.now(). -/
def enhanceError (e : JsError) (ctx : ErrCtx) (now : Int) : JsError :=
  let enhanced :=
    if e.kind = ErrKind.worker then e
    else { kind := ErrKind.worker, message := e.message }
  { enhanced with context := ctx, timestamp := some now }

/-- The observable outcome of one withRetry run: the value returned or
error thrown (none models the undefined fall-through when
maxRetries = 0 and the loop body never runs), how many times the
wrapped operation was invoked, and the sleep durations in order. -/
structure RetryTrace (α : Type) where
  result : Option (Except JsError α)
  calls : Nat
  sleeps : List Nat
deriving Repr

/-- The loop of ErrorHandler.withRetry.  The wrapped operation is
modelled as a schedule op : Nat → Except JsError α giving the outcome
of the k-th invocation (1-indexed).  fuel counts the remaining loop
iterations (maxRetries - attempt + 1), so the recursion mirrors
for (attempt = 1; attempt <= maxRetries; attempt++). -/
def withRetryGo {α : Type} (cfg : RetryConfig) (op : Nat → Except JsError α)
    (ctx : ErrCtx) (now : Int) :
    Nat → Nat → Nat → List Nat → Nat → RetryTrace α
  | 0, _, _, sleeps, calls => { result := none, calls := calls, sleeps := sleeps }
  | fuel + 1, attempt, delay, sleeps, calls =>
    match op attempt with
    | Except.ok v =>
      { result := some (Except.ok v), calls := calls + 1, sleeps := sleeps }
    | Except.error e =>
      if ¬ isRetryable e then
        { result := some (Except.error (enhanceError e ctx now))
          calls := calls + 1, sleeps := sleeps }
      else if attempt = cfg.maxRetries then
        { result := some (Except.error (enhanceError
            { kind := ErrKind.generic
              message := "Operation failed after " ++ toString cfg.maxRetries
                ++ " attempts: " ++ e.message }
            (ctx ++ [("finalAttempt", "true")]) now))
          calls := calls + 1, sleeps := sleeps }
      else
        withRetryGo cfg op ctx now fuel (attempt + 1)
          (min (delay * 2) cfg.maxDelay) (sleeps ++ [delay]) (calls + 1)

/-- ErrorHandler.withRetry(operation, context): let delay = baseDelay
and run the attempt loop from attempt 1. -/
def withRetry {α : Type} (cfg : RetryConfig) (op : Nat → Except JsError α)
    (ctx : ErrCtx) (now : Int) : RetryTrace α :=
  withRetryGo cfg op ctx now cfg.maxRetries 1 cfg.baseDelay [] 0

/-! ## ChunkManager (src/managers/chunkManager.js)

pendingChunks maps an operationId to
{total, completed: a plain counter, chunks: Map index -> WriteResult}.

updateChunkProgress, when the counter reaches total, executes
this.handleCompletedOperation(operationId).  No method of that name is
defined anywhere in the repository, so at runtime this line throws
TypeError: this.handleCompletedOperation is not a function.  The model
records that the line was reached in a Boolean completionCall flag. -/

/-- One pendingChunks record. -/
structure Operation where
  total : Nat
  completed : Nat
  chunks : List (Nat × WriteResult)
deriving Repr, DecidableEq

/-- The ChunkManager instance state: this.pendingChunks. -/
structure CMState where
  pendingChunks : List (String × Operation)
deriving Repr, DecidableEq

/-- ChunkManager.updateChunkProgress: look the operation up (silently
do nothing when unknown), store the result under the index in the
chunks map, increment the completed counter, and - when the counter
equals total - take the completion branch (the call to the undefined
method handleCompletedOperation); the returned Boolean records whether
that branch was taken. -/
def updateChunkProgress (cm : CMState) (operationId : String) (index : Nat)
    (result : WriteResult) : CMState × Bool :=
  match mapGet cm.pendingChunks operationId with
  | none => (cm, false)
  | some op =>
    let op2 : Operation :=
      { op with chunks := mapSet op.chunks index result
                completed := op.completed + 1 }
    ({ pendingChunks := mapSet cm.pendingChunks operationId op2 },
     decide (op2.completed = op2.total))

/-- The loop of ChunkManager.handleChunkedWrite together with
ChunkManager.writeChunk: for each fragment, derive its chunk path,
write it through writeSingleFile with metadata
{operationId, index, isChunk: true}, feed the WriteResult to
updateChunkProgress, and collect the results.  The Boolean output is
the disjunction of the completion-branch flags, i.e. whether the
undefined-method call was reached during the loop. -/
def writeChunksLoop (path operationId : String) (now : Int) :
    FMState → CMState → List String → Nat →
    List WriteResult × FMState × CMState × Bool
  | fm, cm, [], _ => ([], fm, cm, false)
  | fm, cm, c :: rest, i =>
    let chunkPath := getChunkPath path i
    let step := writeSingleFile fm chunkPath c
      (Metadata.chunkMeta operationId i true) now
    let upd := updateChunkProgress cm operationId i step.1
    let tail := writeChunksLoop path operationId now step.2 upd.1 rest (i + 1)
    (step.1 :: tail.1, tail.2.1, tail.2.2.1, upd.2 || tail.2.2.2)

/-- ChunkManager.handleChunkedWrite up to the end of its chunk loop:
split the content, register the Operation record
{total: chunks.length, completed: 0, chunks: new Map()}, and run the
loop.  In the source the loop is followed by
finalizeChunkedOperation(operationId, path), but execution never
reaches it: on the last chunk the completed counter equals total and
updateChunkProgress calls the undefined handleCompletedOperation
(the Boolean output is true).  The operationId - in the source
generated from Date.now() and Math.random() - is a parameter. -/
def handleChunkedWrite (fm : FMState) (cm : CMState) (path content : String)
    (numChunks : Nat) (operationId : String) (now : Int) :
    List WriteResult × FMState × CMState × Bool :=
  let chunks := splitContent content numChunks
  let cm1 : CMState :=
    { pendingChunks := mapSet cm.pendingChunks operationId
        { total := chunks.length, completed := 0, chunks := [] } }
  writeChunksLoop path operationId now fm cm1 chunks 0

/-- ChunkManager.cleanupOperation: no-op for an unknown operationId;
otherwise call fileManager.clearCache(chunk.path) for every stored
chunk WriteResult - passing the path string where clearCache expects
the olderThan age, so the comparison is against ToNumber(path) - and
delete the pendingChunks record. -/
def cleanupOperation (cm : CMState) (fm : FMState) (operationId : String)
    (now : Int) : CMState × FMState :=
  match mapGet cm.pendingChunks operationId with
  | none => (cm, fm)
  | some op =>
    let fm2 := op.chunks.foldl
      (fun acc p => clearCache acc (jsToNumber p.2.path) now) fm
    ({ pendingChunks := mapDelete cm.pendingChunks operationId }, fm2)

/-! ## Claim C4: Content Size Analyzer -/

/-- C4 counterexample: for empty content the analyzer does not return
chunks = 1: Math.ceil(0 / CHUNK_SIZE) is 0, so the claim "otherwise
(including empty content) requiresChunking is false and chunks equals
1" is false at the empty string. -/
theorem analyzeContent_empty_chunks_ne_one :
    ¬ ((analyzeContent "").requiresChunking = false → (analyzeContent "").chunks = 1) := by
  decide

/-- C4 (amended): requiresChunking holds exactly when the UTF-8 byte
size exceeds CHUNK_SIZE; chunks is always the ceiling of
size / CHUNK_SIZE (characterised by the two bounding inequalities when
the size is positive); hence chunks = 1 whenever 0 < size ≤ CHUNK_SIZE,
but empty content yields chunks = 0, not 1. -/
theorem analyzeContent_spec (content : String) :
    ((analyzeContent content).requiresChunking = true
      ↔ content.utf8ByteSize > CHUNK_SIZE)
    ∧ (0 < content.utf8ByteSize →
        content.utf8ByteSize ≤ (analyzeContent content).chunks * CHUNK_SIZE
        ∧ ((analyzeContent content).chunks - 1) * CHUNK_SIZE < content.utf8ByteSize)
    ∧ (0 < content.utf8ByteSize → content.utf8ByteSize ≤ CHUNK_SIZE →
        (analyzeContent content).chunks = 1)
    ∧ (content.utf8ByteSize = 0 → (analyzeContent content).chunks = 0) := by
  refine ⟨?_, ?_, ?_, ?_⟩
  · show decide (content.utf8ByteSize > CHUNK_SIZE) = true ↔ _
    simp [CHUNK_SIZE]
  · show 0 < content.utf8ByteSize →
      content.utf8ByteSize ≤ (content.utf8ByteSize + CHUNK_SIZE - 1) / CHUNK_SIZE * CHUNK_SIZE
      ∧ ((content.utf8ByteSize + CHUNK_SIZE - 1) / CHUNK_SIZE - 1) * CHUNK_SIZE
          < content.utf8ByteSize
    simp only [CHUNK_SIZE]
    omega
  · show 0 < content.utf8ByteSize → content.utf8ByteSize ≤ CHUNK_SIZE →
      (content.utf8ByteSize + CHUNK_SIZE - 1) / CHUNK_SIZE = 1
    simp only [CHUNK_SIZE]
    omega
  · show content.utf8ByteSize = 0 →
      (content.utf8ByteSize + CHUNK_SIZE - 1) / CHUNK_SIZE = 0
    simp only [CHUNK_SIZE]
    omega

/-- C4 witness: a two-byte content neither requires chunking nor is
empty, and the amended theorem yields chunks = 1 for it. -/
theorem analyzeContent_spec_witness :
    (0 < "ab".utf8ByteSize ∧ "ab".utf8ByteSize ≤ CHUNK_SIZE)
    ∧ (analyzeContent "ab").chunks = 1 :=
  ⟨⟨by decide, by decide⟩, (analyzeContent_spec "ab").2.2.1 (by decide) (by decide)⟩

/-! ## Claim C9: age-based cache eviction -/

/-- The entry scan of clearCache is a filter on the age condition. -/
lemma clearCacheEntries_eq_filter (now : Int) (b : Option Int)
    (l : List (String × CacheEntry)) :
    clearCacheEntries now b l
      = l.filter fun p => ! jsGtNaN (now - p.2.timestamp) b := by
  induction l with
  | nil => rfl
  | cons hd tl ih =>
    obtain ⟨q, ent⟩ := hd
    cases hb : jsGtNaN (now - ent.timestamp) b <;>
      simp [clearCacheEntries, List.filter_cons, hb, ih]

/-- C9: clearCache with a numeric maxAge keeps exactly the entries
whose age now - timestamp is at most maxAge (an entry is removed only
when its age is strictly greater, so an entry whose age equals maxAge
exactly is retained), and the default maxAge is 3600000 ms. -/
theorem clearCache_evicts_strictly_older (now maxAge : Int)
    (l : List (String × CacheEntry)) (p : String) (e : CacheEntry) :
    ((p, e) ∈ clearCacheEntries now (some maxAge) l
      ↔ ((p, e) ∈ l ∧ now - e.timestamp ≤ maxAge))
    ∧ CLEAR_CACHE_DEFAULT = 3600000 := by
  refine ⟨?_, rfl⟩
  rw [clearCacheEntries_eq_filter, List.mem_filter]
  constructor
  · rintro ⟨hm, hc⟩
    refine ⟨hm, ?_⟩
    simp only [jsGtNaN, Bool.not_eq_true', decide_eq_false_iff_not, not_lt] at hc
    omega
  · rintro ⟨hm, hc⟩
    refine ⟨hm, ?_⟩
    simp only [jsGtNaN, Bool.not_eq_true', decide_eq_false_iff_not, not_lt]
    omega

/-! ## Claim C3: Chunk Splitter round-trip -/

/-- Folding string append over per-chunk strings concatenates the
underlying character lists. -/
lemma foldl_append_mk {α : Type} (f : α → List Char) :
    ∀ (l : List α) (acc : String),
      List.foldl (fun r s => r ++ s) acc (l.map fun x => String.mk (f x))
        = String.mk (acc.data ++ (l.map f).flatten) := by
  intro l
  induction l with
  | nil =>
    intro acc
    simp only [List.map_nil, List.foldl_nil, List.flatten_nil, List.append_nil]
  | cons hd tl ih =>
    intro acc
    simp only [List.map_cons, List.foldl_cons, List.flatten_cons]
    rw [ih]
    show String.mk ((acc.data ++ f hd) ++ (tl.map f).flatten) = _
    rw [List.append_assoc]

/-- String.join over per-chunk strings is the flattened list of their
characters. -/
lemma join_map_mk {α : Type} (f : α → List Char) (l : List α) :
    String.join (l.map fun x => String.mk (f x)) = String.mk (l.map f).flatten := by
  show List.foldl (fun r s => r ++ s) "" (l.map fun x => String.mk (f x)) = _
  rw [foldl_append_mk]
  rfl

/-- Concatenating the n consecutive windows of width c starting at
offsets 0, c, 2c, ... recovers the first n * c characters. -/
lemma range_slice_flatten (c : Nat) :
    ∀ (n : Nat) (l : List Char),
      ((List.range n).map fun i => (l.drop (i * c)).take c).flatten = l.take (n * c) := by
  intro n
  induction n with
  | zero =>
    intro l
    simp
  | succ m ih =>
    intro l
    rw [List.range_succ_eq_map]
    simp only [List.map_cons, List.map_map, List.flatten_cons, Nat.zero_mul,
      List.drop_zero]
    have hcomp : ((fun i => (l.drop (i * c)).take c) ∘ fun i => i + 1)
        = fun i => (((l.drop c).drop (i * c)).take c) := by
      funext i
      simp only [Function.comp_apply]
      rw [List.drop_drop]
      congr 1
      ring
    rw [hcomp, ih (l.drop c), show (m + 1) * c = c + m * c by ring, List.take_add]

/-- The ceiling quotient q = (len + n - 1) / n satisfies len ≤ n * q
when n is positive. -/
lemma le_mul_ceilDiv (len n : Nat) (hn : 0 < n) : len ≤ n * ((len + n - 1) / n) := by
  have h1 := Nat.div_add_mod (len + n - 1) n
  have h2 : (len + n - 1) % n < n := Nat.mod_lt _ hn
  generalize n * ((len + n - 1) / n) = M at h1 ⊢
  omega

/-- C3: for every content and every numChunks ≥ 1 the splitter
round-trips: joining the fragments in order reproduces the content
exactly, the fragment lengths sum to the content length (with the join
identity this means the fragments tile the content without overlap),
there are exactly numChunks fragments, and numChunks = 1 returns the
whole content as a single fragment; all of this also holds for empty
content. -/
theorem splitContent_roundtrip (content : String) (numChunks : Nat)
    (h : 1 ≤ numChunks) :
    String.join (splitContent content numChunks) = content
    ∧ ((splitContent content numChunks).map String.length).sum = content.length
    ∧ (splitContent content numChunks).length = numChunks
    ∧ splitContent content 1 = [content] := by
  have hsplit : splitContent content numChunks
      = (List.range numChunks).map fun i =>
          String.mk ((content.data.drop
            (i * ((content.length + numChunks - 1) / numChunks))).take
            ((content.length + numChunks - 1) / numChunks)) := by
    simp [splitContent, jsSlice, Nat.add_sub_cancel_left]
  have hflat := range_slice_flatten
    ((content.length + numChunks - 1) / numChunks) numChunks content.data
  have hlen : content.data.length
      ≤ numChunks * ((content.length + numChunks - 1) / numChunks) :=
    le_mul_ceilDiv content.length numChunks h
  have htake : content.data.take
      (numChunks * ((content.length + numChunks - 1) / numChunks))
      = content.data := List.take_of_length_le hlen
  have hjoin : String.join (splitContent content numChunks) = content := by
    rw [hsplit, join_map_mk, hflat, htake]
  refine ⟨hjoin, ?_, ?_, ?_⟩
  · rw [hsplit, List.map_map]
    have hlenflat := congrArg List.length hflat
    rw [List.length_flatten, List.map_map, htake] at hlenflat
    exact hlenflat
  · simp [splitContent]
  · have hone : (content.length + 1 - 1) / 1 = content.length := by
      omega
    have hr1 : List.range 1 = [0] := rfl
    have htk : content.data.take content.length = content.data :=
      List.take_of_length_le (Nat.le_refl _)
    simp only [splitContent, jsSlice, hone, hr1, List.map_cons, List.map_nil,
      Nat.zero_mul, Nat.zero_add, List.drop_zero, Nat.sub_zero, htk]

/-- C3 witness: splitting an 8-character content into 3 fragments and
joining them reproduces the content. -/
theorem splitContent_roundtrip_witness :
    (1 ≤ 3) ∧ String.join (splitContent "abcdefgh" 3) = "abcdefgh" :=
  ⟨by decide, (splitContent_roundtrip "abcdefgh" 3 (by decide)).1⟩

/-! ## Claims C5-C8: Retry Executor -/

/-- Capping a product at M before multiplying again gives the same
cap as multiplying first. -/
lemma min_mul_right_min (a M b : Nat) (hb : 1 ≤ b) :
    min (min a M * b) M = min (a * b) M := by
  rcases Nat.le_total a M with h | h
  · rw [Nat.min_eq_left h]
  · rw [Nat.min_eq_right h]
    have h1 : M ≤ M * b := Nat.le_mul_of_pos_right M hb
    have h2 : M ≤ a * b := le_trans h (Nat.le_mul_of_pos_right a hb)
    rw [Nat.min_eq_right h1, Nat.min_eq_right h2]

/-- Every sleep the retry loop appends beyond the accumulator follows
the doubling-capped-at-maxDelay law, starting from the delay the loop
was entered with. -/
lemma withRetryGo_sleeps {α : Type} (cfg : RetryConfig)
    (op : Nat → Except JsError α) (ctx : ErrCtx) (now : Int) :
    ∀ (fuel attempt delay : Nat) (sleeps : List Nat) (calls : Nat),
      delay ≤ cfg.maxDelay →
      ∃ tail,
        (withRetryGo cfg op ctx now fuel attempt delay sleeps calls).sleeps
            = sleeps ++ tail
        ∧ ∀ k d, tail.get? k = some d → d = min (delay * 2 ^ k) cfg.maxDelay := by
  intro fuel
  induction fuel with
  | zero =>
    intro attempt delay sleeps calls hd
    refine ⟨[], by simp [withRetryGo], ?_⟩
    intro k d hk
    simp at hk
  | succ f ih =>
    intro attempt delay sleeps calls hd
    cases hop : op attempt with
    | ok v =>
      refine ⟨[], by simp [withRetryGo, hop], ?_⟩
      intro k d hk
      simp at hk
    | error e =>
      by_cases hre : isRetryable e = true
      · by_cases ha : attempt = cfg.maxRetries
        · refine ⟨[], ?_, ?_⟩
          · subst ha
            simp [withRetryGo, hop, hre]
          · intro k d hk
            simp at hk
        · have hd2 : min (delay * 2) cfg.maxDelay ≤ cfg.maxDelay :=
            Nat.min_le_right _ _
          obtain ⟨tail, heq, hlaw⟩ := ih (attempt + 1)
            (min (delay * 2) cfg.maxDelay) (sleeps ++ [delay]) (calls + 1) hd2
          refine ⟨delay :: tail, ?_, ?_⟩
          · rw [show withRetryGo cfg op ctx now (f + 1) attempt delay sleeps calls
                = withRetryGo cfg op ctx now f (attempt + 1)
                  (min (delay * 2) cfg.maxDelay) (sleeps ++ [delay]) (calls + 1)
              from by simp [withRetryGo, hop, hre, ha], heq, List.append_assoc]
            rfl
          · intro k d hk
            cases k with
            | zero =>
              simp only [List.get?] at hk
              cases hk
              rw [pow_zero, Nat.mul_one, Nat.min_eq_left hd]
            | succ k2 =>
              have hk2 : tail.get? k2 = some d := hk
              rw [hlaw k2 d hk2,
                min_mul_right_min (delay * 2) cfg.maxDelay (2 ^ k2)
                  (Nat.one_le_two_pow)]
              congr 1
              ring
      · refine ⟨[], by simp [withRetryGo, hop, hre], ?_⟩
        intro k d hk
        simp at hk

/-- C5: in every run of withRetry with the default configuration
(baseDelay 1000 ms, maxDelay 10000 ms, maxRetries 3), the wait
recorded after the (k+1)-th failed eligible attempt - sleeps.get? k,
the wait before attempt k+2 - equals min(1000 * 2^k, 10000); in
particular the wait before attempt 2 is 1000 ms and before attempt 3
is 2000 ms. -/
theorem withRetry_backoff_schedule {α : Type} (op : Nat → Except JsError α)
    (ctx : ErrCtx) (now : Int) (k d : Nat)
    (h : (withRetry defaultRetryConfig op ctx now).sleeps.get? k = some d) :
    d = min (1000 * 2 ^ k) 10000 := by
  have hd : defaultRetryConfig.baseDelay ≤ defaultRetryConfig.maxDelay := by
    decide
  obtain ⟨tail, heq, hlaw⟩ := withRetryGo_sleeps defaultRetryConfig op ctx now
    defaultRetryConfig.maxRetries 1 defaultRetryConfig.baseDelay [] 0 hd
  unfold withRetry at h
  rw [heq, List.nil_append] at h
  exact hlaw k d h

/-- A retryable error and the schedule that always fails with it. -/
def retryBoom : JsError := { kind := ErrKind.retryable, message := "boom" }

/-- A wrapped operation failing with a retryable error on every
invocation. -/
def opAlwaysRetryable : Nat → Except JsError Nat :=
  fun _ => Except.error retryBoom

/-- C5 witness: the concrete run that always fails sleeps 2000 ms
before attempt 3, as the schedule theorem dictates. -/
theorem withRetry_backoff_schedule_witness :
    (withRetry defaultRetryConfig opAlwaysRetryable [] 0).sleeps.get? 1 = some 2000
    ∧ 2000 = min (1000 * 2 ^ 1) 10000 := by
  have h : (withRetry defaultRetryConfig opAlwaysRetryable [] 0).sleeps.get? 1
      = some 2000 := by decide
  exact ⟨h, withRetry_backoff_schedule opAlwaysRetryable [] 0 1 2000 h⟩

/-- Core behaviour of withRetry on a first-attempt validation error:
one invocation, immediate failure with the fresh WorkerError wrap. -/
lemma withRetry_validation_core {α : Type} (cfg : RetryConfig)
    (op : Nat → Except JsError α) (ctx : ErrCtx) (now : Int) (e : JsError)
    (hm : 1 ≤ cfg.maxRetries) (h1 : op 1 = Except.error e)
    (hv : e.kind = ErrKind.validation) :
    (withRetry cfg op ctx now).calls = 1
    ∧ (withRetry cfg op ctx now).result
        = some (Except.error
            { kind := ErrKind.worker, message := e.message, details := [],
              status := none, code := none, context := ctx,
              timestamp := some now }) := by
  have hnr : isRetryable e = false := by
    simp [isRetryable, hv]
  have henh : enhanceError e ctx now
      = { kind := ErrKind.worker, message := e.message, details := [],
          status := none, code := none, context := ctx,
          timestamp := some now } := by
    simp [enhanceError, hv]
  obtain ⟨m, hm2⟩ : ∃ m, cfg.maxRetries = m + 1 :=
    ⟨cfg.maxRetries - 1, by omega⟩
  unfold withRetry
  rw [hm2]
  constructor
  · simp [withRetryGo, h1, hnr]
  · simp [withRetryGo, h1, hnr, henh]

/-- C6: an operation that throws a validation-kind (permanent) error
on its first attempt is invoked exactly once; withRetry fails
immediately, surfacing a WorkerError wrap that carries the original
message together with the supplied context and a timestamp. -/
theorem withRetry_failfast_permanent {α : Type} (cfg : RetryConfig)
    (op : Nat → Except JsError α) (ctx : ErrCtx) (now : Int) (e : JsError)
    (hm : 1 ≤ cfg.maxRetries) (h1 : op 1 = Except.error e)
    (hv : e.kind = ErrKind.validation) :
    (withRetry cfg op ctx now).calls = 1
    ∧ (withRetry cfg op ctx now).result
        = some (Except.error
            { kind := ErrKind.worker, message := e.message, details := [],
              status := none, code := none, context := ctx,
              timestamp := some now }) :=
  withRetry_validation_core cfg op ctx now e hm h1 hv

/-- A validation error carrying a human-readable details list, and
the operation that always throws it. -/
def valBad : JsError :=
  { kind := ErrKind.validation, message := "invalid payload",
    details := ["name must be a string"] }

/-- A wrapped operation failing with valBad on every invocation. -/
def opAlwaysValidation : Nat → Except JsError Nat :=
  fun _ => Except.error valBad

/-- C6 witness: the concrete validation failure is invoked exactly
once. -/
theorem withRetry_failfast_permanent_witness :
    (1 ≤ defaultRetryConfig.maxRetries)
    ∧ (withRetry defaultRetryConfig opAlwaysValidation [("stage", "write")] 0).calls = 1 :=
  ⟨by decide,
    (withRetry_failfast_permanent defaultRetryConfig opAlwaysValidation
      [("stage", "write")] 0 valBad (by decide) rfl rfl).1⟩

/-- C7 counterexample: for a validation error carrying the detail
string "name must be a string", the error surfaced by withRetry is a
freshly constructed WorkerError whose details list is empty - the
original detail strings are not present on the surfaced error, so the
error is not the original one merely augmented with context. -/
theorem withRetry_validation_details_lost :
    (withRetry defaultRetryConfig opAlwaysValidation [] 0).result
      = some (Except.error
          { kind := ErrKind.worker, message := "invalid payload", details := [],
            status := none, code := none, context := [],
            timestamp := some 0 })
    ∧ valBad.details = ["name must be a string"]
    ∧ valBad.kind = ErrKind.validation := by
  refine ⟨?_, rfl, rfl⟩
  rfl

/-- When the attempts before attempt k all fail with retryable errors
(the precondition for the loop to reach attempt k at all) and attempt
k raises a validation-kind error, the loop entered at any attempt at
or before k stops right at attempt k - the non-retryable check runs
before the exhaustion check, so this holds even when k is the last
attempt - surfacing the fresh WorkerError wrap. -/
lemma withRetryGo_validation {α : Type} (cfg : RetryConfig)
    (op : Nat → Except JsError α) (ctx : ErrCtx) (now : Int) :
    ∀ (fuel attempt delay : Nat) (sleeps : List Nat) (calls : Nat)
      (k : Nat) (e : JsError),
      attempt + fuel = cfg.maxRetries + 1 → attempt ≤ k → k ≤ cfg.maxRetries →
      (∀ j, attempt ≤ j → j < k →
        ∃ e2, op j = Except.error e2 ∧ isRetryable e2 = true) →
      op k = Except.error e → e.kind = ErrKind.validation →
      (withRetryGo cfg op ctx now fuel attempt delay sleeps calls).calls
          = calls + (k - attempt + 1)
      ∧ (withRetryGo cfg op ctx now fuel attempt delay sleeps calls).result
        = some (Except.error
            { kind := ErrKind.worker, message := e.message, details := [],
              status := none, code := none, context := ctx,
              timestamp := some now }) := by
  intro fuel
  induction fuel with
  | zero =>
    intro attempt delay sleeps calls k e hsum hak hkm hprev hop hv
    omega
  | succ f ih =>
    intro attempt delay sleeps calls k e hsum hak hkm hprev hop hv
    by_cases hat : attempt = k
    · subst hat
      have hnr : isRetryable e = false := by
        simp [isRetryable, hv]
      have henh : enhanceError e ctx now
          = { kind := ErrKind.worker, message := e.message, details := [],
              status := none, code := none, context := ctx,
              timestamp := some now } := by
        simp [enhanceError, hv]
      refine ⟨?_, ?_⟩
      · rw [show attempt - attempt + 1 = 1 from by omega]
        simp [withRetryGo, hop, hnr]
      · simp [withRetryGo, hop, hnr, henh]
    · have hlt : attempt < k := by omega
      obtain ⟨e2, hop2, hre2⟩ := hprev attempt (Nat.le_refl _) hlt
      have hne : ¬ attempt = cfg.maxRetries := by omega
      have hstep : withRetryGo cfg op ctx now (f + 1) attempt delay sleeps calls
          = withRetryGo cfg op ctx now f (attempt + 1)
            (min (delay * 2) cfg.maxDelay) (sleeps ++ [delay]) (calls + 1) := by
        simp [withRetryGo, hop2, hre2, hne]
      rw [hstep]
      obtain ⟨hc, hres⟩ := ih (attempt + 1) (min (delay * 2) cfg.maxDelay)
        (sleeps ++ [delay]) (calls + 1) k e (by omega) (by omega) hkm
        (fun j hj1 hj2 => hprev j (by omega) hj2) hop hv
      exact ⟨by rw [hc]; omega, hres⟩

/-- C7 (amended): every permanent (validation-kind) error raised
inside an operation run - on whatever attempt k it is raised (earlier
attempts having failed retryably, which is what makes attempt k
happen) - surfaces to the immediate caller not as the original error
but as a freshly constructed WorkerError-kind wrap carrying only the
original message plus the supplied context and a timestamp; the run
stops at attempt k, and the original details list is dropped (the
surfaced error always has an empty details list), so whenever the
original carried a non-empty details list the surfaced error differs
from it. -/
theorem withRetry_validation_surfaces_wrapped {α : Type} (cfg : RetryConfig)
    (op : Nat → Except JsError α) (ctx : ErrCtx) (now : Int) (e : JsError)
    (k : Nat) (hk1 : 1 ≤ k) (hk2 : k ≤ cfg.maxRetries)
    (hprev : ∀ j, 1 ≤ j → j < k →
      ∃ e2, op j = Except.error e2 ∧ isRetryable e2 = true)
    (hop : op k = Except.error e) (hv : e.kind = ErrKind.validation) :
    (withRetry cfg op ctx now).calls = k
    ∧ (withRetry cfg op ctx now).result
        = some (Except.error
            { kind := ErrKind.worker, message := e.message, details := [],
              status := none, code := none, context := ctx,
              timestamp := some now })
    ∧ (e.details ≠ [] →
        (withRetry cfg op ctx now).result ≠ some (Except.error e)) := by
  obtain ⟨hc, hres⟩ := withRetryGo_validation cfg op ctx now cfg.maxRetries 1
    cfg.baseDelay [] 0 k e (by omega) hk1 hk2 hprev hop hv
  unfold withRetry
  refine ⟨by rw [hc]; omega, hres, ?_⟩
  intro hne hcontra
  rw [hres] at hcontra
  have hinj := Except.error.inj (Option.some.inj hcontra)
  have hdet := congrArg JsError.details hinj
  exact hne hdet.symm

/-- A wrapped operation whose first attempt fails with a retryable
error and whose second attempt raises the validation error valBad. -/
def opRetryThenValidation : Nat → Except JsError Nat :=
  fun attempt => if attempt = 1 then Except.error retryBoom else Except.error valBad

/-- C7 witness: a validation error raised on attempt 2 - after a
retryable first failure - still surfaces as the bare WorkerError wrap
and is not the original error with its non-empty details list. -/
theorem withRetry_validation_surfaces_wrapped_witness :
    ((1 : Nat) ≤ 2 ∧ 2 ≤ defaultRetryConfig.maxRetries ∧ valBad.details ≠ [])
    ∧ (withRetry defaultRetryConfig opRetryThenValidation [] 0).result
        ≠ some (Except.error valBad) :=
  ⟨⟨by decide, by decide, by decide⟩,
    (withRetry_validation_surfaces_wrapped defaultRetryConfig
      opRetryThenValidation [] 0 valBad 2 (by decide) (by decide)
      (fun j hj1 hj2 => by
        have hj : j = 1 := by omega
        subst hj
        exact ⟨retryBoom, rfl, rfl⟩)
      rfl rfl).2.2 (by decide)⟩

/-- When every attempt from the current one on fails with a retryable
error, the retry loop performs one invocation per remaining iteration
and ends with the terminal wrapped error built from the attempt count
and the last underlying message. -/
lemma withRetryGo_exhaust {α : Type} (cfg : RetryConfig)
    (op : Nat → Except JsError α) (ctx : ErrCtx) (now : Int) :
    ∀ (fuel attempt delay : Nat) (sleeps : List Nat) (calls : Nat),
      attempt + fuel = cfg.maxRetries + 1 → 1 ≤ fuel →
      (∀ k, attempt ≤ k → k ≤ cfg.maxRetries →
        ∃ e, op k = Except.error e ∧ isRetryable e = true) →
      (withRetryGo cfg op ctx now fuel attempt delay sleeps calls).calls
          = calls + fuel
      ∧ ∃ e, op cfg.maxRetries = Except.error e
        ∧ (withRetryGo cfg op ctx now fuel attempt delay sleeps calls).result
          = some (Except.error
              { kind := ErrKind.worker,
                message := "Operation failed after " ++ toString cfg.maxRetries
                  ++ " attempts: " ++ e.message,
                details := [], status := none, code := none,
                context := ctx ++ [("finalAttempt", "true")],
                timestamp := some now }) := by
  intro fuel
  induction fuel with
  | zero =>
    intro attempt delay sleeps calls hsum hf hfail
    omega
  | succ f ih =>
    intro attempt delay sleeps calls hsum hf hfail
    obtain ⟨e, hop, hre⟩ := hfail attempt (Nat.le_refl _) (by omega)
    by_cases hlast : f = 0
    · subst hlast
      have ha : attempt = cfg.maxRetries := by omega
      subst ha
      constructor
      · simp [withRetryGo, hop, hre]
      · refine ⟨e, hop, ?_⟩
        simp [withRetryGo, hop, hre, enhanceError]
    · have hne : ¬ attempt = cfg.maxRetries := by omega
      have hstep : withRetryGo cfg op ctx now (f + 1) attempt delay sleeps calls
          = withRetryGo cfg op ctx now f (attempt + 1)
            (min (delay * 2) cfg.maxDelay) (sleeps ++ [delay]) (calls + 1) := by
        simp [withRetryGo, hop, hre, hne]
      rw [hstep]
      obtain ⟨hc, e2, hop2, hres⟩ := ih (attempt + 1)
        (min (delay * 2) cfg.maxDelay) (sleeps ++ [delay]) (calls + 1)
        (by omega) (by omega)
        (fun k hk1 hk2 => hfail k (by omega) hk2)
      exact ⟨by rw [hc]; omega, ⟨e2, hop2, hres⟩⟩

/-- C8: when the operation fails with a retryable error on every one
of the maxRetries attempts, withRetry invokes it exactly maxRetries
times and raises a terminal wrapped error whose message states the
number of attempts and embeds the last underlying error's message
(and whose context records finalAttempt). -/
theorem withRetry_exhaustion {α : Type} (cfg : RetryConfig)
    (op : Nat → Except JsError α) (ctx : ErrCtx) (now : Int)
    (hm : 1 ≤ cfg.maxRetries)
    (hfail : ∀ k, 1 ≤ k → k ≤ cfg.maxRetries →
      ∃ e, op k = Except.error e ∧ isRetryable e = true) :
    (withRetry cfg op ctx now).calls = cfg.maxRetries
    ∧ ∃ e, op cfg.maxRetries = Except.error e
      ∧ (withRetry cfg op ctx now).result
        = some (Except.error
            { kind := ErrKind.worker,
              message := "Operation failed after " ++ toString cfg.maxRetries
                ++ " attempts: " ++ e.message,
              details := [], status := none, code := none,
              context := ctx ++ [("finalAttempt", "true")],
              timestamp := some now }) := by
  have h := withRetryGo_exhaust cfg op ctx now cfg.maxRetries 1
    cfg.baseDelay [] 0 (by omega) hm hfail
  unfold withRetry
  obtain ⟨hc, hrest⟩ := h
  exact ⟨by rw [hc]; omega, hrest⟩

/-- C8 witness: the always-retryable failure under the default
configuration is invoked exactly 3 times. -/
theorem withRetry_exhaustion_witness :
    (1 ≤ defaultRetryConfig.maxRetries)
    ∧ (withRetry defaultRetryConfig opAlwaysRetryable [] 0).calls
        = defaultRetryConfig.maxRetries :=
  ⟨by decide,
    (withRetry_exhaustion defaultRetryConfig opAlwaysRetryable [] 0 (by decide)
      (fun k hk1 hk2 => ⟨retryBoom, rfl, rfl⟩)).1⟩

/-! ## Claim C1: completion tracking of the orchestrator -/

/-- A fresh two-chunk operation record. -/
def opTwo : Operation := { total := 2, completed := 0, chunks := [] }

/-- A ChunkManager holding the fresh two-chunk operation op1. -/
def cmTwo : CMState := { pendingChunks := [("op1", opTwo)] }

/-- The WriteResult of the first chunk write of op1. -/
def wrFirst : WriteResult :=
  { path := "api.part0.json", size := 5, cached := true, timestamp := 0 }

/-- State after delivering the success of chunk index 0 once. -/
def afterFirst : CMState × Bool := updateChunkProgress cmTwo "op1" 0 wrFirst

/-- State after re-delivering the success of the same chunk index 0
(e.g. from a retried write). -/
def afterRedeliver : CMState × Bool :=
  updateChunkProgress afterFirst.1 "op1" 0 wrFirst

/-- C1 (code bug, evaluated at the failing input): delivering a
success for chunk index 0 twice in a two-chunk operation raises the
completed counter to 2 - the re-delivery is double-counted, not
absorbed by set semantics - while only 1 distinct chunk index is
recorded; because the counter now equals total, updateChunkProgress
takes the completion branch (second component true), which in the
source calls this.handleCompletedOperation, a method defined nowhere
in the repository (a TypeError at runtime), even though the operation
is not complete. -/
theorem updateChunkProgress_double_counts :
    ((mapGet afterFirst.1.pendingChunks "op1").map Operation.completed = some 1
      ∧ afterFirst.2 = false)
    ∧ ((mapGet afterRedeliver.1.pendingChunks "op1").map Operation.completed
        = some 2
      ∧ (mapGet afterRedeliver.1.pendingChunks "op1").map
          (fun op => op.chunks.length) = some 1
      ∧ afterRedeliver.2 = true) := by
  decide

/-! ## Claim C2: finalize and the merged artifact -/

/-- mapGet after mapSet at the same key returns the new value. -/
lemma mapGet_mapSet {α β : Type} [DecidableEq α]
    (m : List (α × β)) (k : α) (v : β) :
    mapGet (mapSet m k v) k = some v := by
  induction m with
  | nil => simp [mapSet, mapGet]
  | cons hd tl ih =>
    obtain ⟨k2, v2⟩ := hd
    by_cases h : k2 = k
    · simp [mapSet, mapGet, h]
    · simp [mapSet, mapGet, h, ih]

/-- The per-chunk WriteResults and the final ChunkManager state
produced by the chunk-writing loop depend on the fragments only
through their lengths (a WriteResult records path, size, cached and
timestamp - never the content), and not on the file cache. -/
lemma writeChunksLoop_content_blind (path opId : String) (now : Int) :
    ∀ (la lb : List String) (fm1 fm2 : FMState) (cm : CMState) (i : Nat),
      la.map String.length = lb.map String.length →
      (writeChunksLoop path opId now fm1 cm la i).1
          = (writeChunksLoop path opId now fm2 cm lb i).1
      ∧ (writeChunksLoop path opId now fm1 cm la i).2.2.1
          = (writeChunksLoop path opId now fm2 cm lb i).2.2.1
      ∧ (writeChunksLoop path opId now fm1 cm la i).2.2.2
          = (writeChunksLoop path opId now fm2 cm lb i).2.2.2 := by
  intro la
  induction la with
  | nil =>
    intro lb fm1 fm2 cm i h
    have hlb : lb = [] := by
      cases lb with
      | nil => rfl
      | cons b tb => simp at h
    subst hlb
    exact ⟨rfl, rfl, rfl⟩
  | cons a ta ih =>
    intro lb fm1 fm2 cm i h
    cases lb with
    | nil => simp at h
    | cons b tb =>
      simp only [List.map_cons, List.cons.injEq] at h
      obtain ⟨hlen, htail⟩ := h
      have hres : (writeSingleFile fm1 (getChunkPath path i) a
            (Metadata.chunkMeta opId i true) now).1
          = (writeSingleFile fm2 (getChunkPath path i) b
            (Metadata.chunkMeta opId i true) now).1 := by
        simp [writeSingleFile, hlen]
      obtain ⟨e1, e2, e3⟩ := ih tb
        (writeSingleFile fm1 (getChunkPath path i) a
          (Metadata.chunkMeta opId i true) now).2
        (writeSingleFile fm2 (getChunkPath path i) b
          (Metadata.chunkMeta opId i true) now).2
        (updateChunkProgress cm opId i
          (writeSingleFile fm2 (getChunkPath path i) b
            (Metadata.chunkMeta opId i true) now).1).1
        (i + 1) htail
      refine ⟨?_, ?_, ?_⟩
      · simp only [writeChunksLoop]
        rw [hres, e1]
      · simp only [writeChunksLoop]
        rw [hres, e2]
      · simp only [writeChunksLoop]
        rw [hres, e3]

/-- The fragment lengths produced by splitContent depend only on the
content length. -/
lemma length_mk (l : List Char) : (String.mk l).length = l.length := rfl

lemma splitContent_map_length (s t : String) (n : Nat) (h : s.length = t.length) :
    (splitContent s n).map String.length = (splitContent t n).map String.length := by
  have hd : s.data.length = t.data.length := h
  simp only [splitContent, jsSlice, List.map_map]
  refine List.map_congr_left ?_
  intro i hi
  simp only [Function.comp_apply, length_mk, List.length_take, List.length_drop,
    Nat.add_sub_cancel_left, hd, h]

/-- The completion branch of updateChunkProgress fires during the
loop exactly when the running completed counter passes through the
operation's total. -/
lemma writeChunksLoop_trig (path opId : String) (now : Int) :
    ∀ (chunks : List String) (i : Nat) (fm : FMState) (cm : CMState)
      (m p : Nat) (ch : List (Nat × WriteResult)),
      mapGet cm.pendingChunks opId
        = some { total := m, completed := p, chunks := ch } →
      (writeChunksLoop path opId now fm cm chunks i).2.2.2
        = decide (p < m ∧ m ≤ p + chunks.length) := by
  intro chunks
  induction chunks with
  | nil =>
    intro i fm cm m p ch hget
    have hnone : ¬ (p < m ∧ m ≤ p) := by
      omega
    simp only [writeChunksLoop, List.length_nil, Nat.add_zero]
    rw [decide_eq_false hnone]
  | cons a ta ih =>
    intro i fm cm m p ch hget
    set r := (writeSingleFile fm (getChunkPath path i) a
      (Metadata.chunkMeta opId i true) now).1 with hr
    have hupd : updateChunkProgress cm opId i r
        = ({ pendingChunks := mapSet cm.pendingChunks opId
              { total := m, completed := p + 1, chunks := mapSet ch i r } },
           decide (p + 1 = m)) := by
      simp [updateChunkProgress, hget]
    have hget2 : mapGet (mapSet cm.pendingChunks opId
          { total := m, completed := p + 1, chunks := mapSet ch i r }) opId
        = some { total := m, completed := p + 1, chunks := mapSet ch i r } :=
      mapGet_mapSet _ _ _
    simp only [writeChunksLoop]
    rw [hupd]
    dsimp only
    rw [ih (i + 1) (writeSingleFile fm (getChunkPath path i) a
        (Metadata.chunkMeta opId i true) now).2
      { pendingChunks := mapSet cm.pendingChunks opId
          { total := m, completed := p + 1, chunks := mapSet ch i r } }
      m (p + 1) (mapSet ch i r) hget2]
    have hiff : ((p + 1 = m) ∨ ((p + 1) < m ∧ m ≤ (p + 1) + ta.length))
        ↔ (p < m ∧ m ≤ p + (a :: ta).length) := by
      simp only [List.length_cons]
      omega
    rw [← Bool.decide_or, decide_eq_decide.mpr hiff]

/-- UTF-8 size of a repeated character. -/
lemma utf8Go_replicate (c : Char) :
    ∀ n : Nat, String.utf8ByteSize.go (List.replicate n c) = n * c.utf8Size := by
  intro n
  induction n with
  | zero =>
    show (0 : Nat) = 0 * c.utf8Size
    rw [Nat.zero_mul]
  | succ m ih =>
    rw [List.replicate_succ]
    show String.utf8ByteSize.go (List.replicate m c) + c.utf8Size = _
    rw [ih]
    ring

/-- A 120000-character content of letter a. -/
def bigA : String := String.mk (List.replicate 120000 'a')

/-- A 120000-character content of letter b. -/
def bigB : String := String.mk (List.replicate 120000 'b')

/-- An empty file cache. -/
def fmEmpty : FMState := { fileCache := [] }

/-- A ChunkManager with no pending operations. -/
def cmEmpty : CMState := { pendingChunks := [] }

/-- bigA analyzes to 120000 bytes, requiring chunking into 3 chunks. -/
lemma analyzeContent_bigA :
    analyzeContent bigA
      = { size := 120000, requiresChunking := true, chunks := 3,
          approachingLimit := true } := by
  have hsz : bigA.utf8ByteSize = 120000 := by
    show String.utf8ByteSize.go (List.replicate 120000 'a') = 120000
    rw [utf8Go_replicate]
    rfl
  simp [analyzeContent, hsz, CHUNK_SIZE]

/-- The two big contents differ. -/
lemma bigA_ne_bigB : bigA ≠ bigB := by
  intro h
  have hd : List.replicate 120000 'a' = List.replicate 120000 'b' :=
    congrArg String.data h
  have hh := congrArg List.head? hd
  rw [List.head?_replicate, List.head?_replicate] at hh
  simp at hh

/-- The two big contents have the same length. -/
lemma bigA_length_eq : bigA.length = bigB.length := by
  show (List.replicate 120000 'a').length = (List.replicate 120000 'b').length
  rw [List.length_replicate, List.length_replicate]

/-- splitContent always returns numChunks fragments. -/
lemma splitContent_length (s : String) (n : Nat) :
    (splitContent s n).length = n := by
  simp [splitContent]

/-- C2 (code bug, evaluated at the failing input): for the two
different 120000-byte contents bigA and bigB - both of which require
chunking into 3 chunks - the chunked-write loop produces identical
per-chunk WriteResults and identical ChunkManager states (identical
operation.chunks maps), because a WriteResult stores only path, size,
cached and timestamp, never the chunk content; finalizeChunkedOperation
consumes nothing but operation.chunks.values(), so no finalize step
computed from that data can write a merged artifact byte-identical to
the original input for both contents.  Moreover the loop reaches the
completion branch (last component true): on the last chunk the source
calls the undefined method handleCompletedOperation and throws before
finalizeChunkedOperation could even run. -/
theorem handleChunkedWrite_underdetermines_content :
    bigA ≠ bigB
    ∧ analyzeContent bigA
        = { size := 120000, requiresChunking := true, chunks := 3,
            approachingLimit := true }
    ∧ (handleChunkedWrite fmEmpty cmEmpty "api.json" bigA 3 "op1" 0).1
        = (handleChunkedWrite fmEmpty cmEmpty "api.json" bigB 3 "op1" 0).1
    ∧ (handleChunkedWrite fmEmpty cmEmpty "api.json" bigA 3 "op1" 0).2.2.1
        = (handleChunkedWrite fmEmpty cmEmpty "api.json" bigB 3 "op1" 0).2.2.1
    ∧ (handleChunkedWrite fmEmpty cmEmpty "api.json" bigA 3 "op1" 0).2.2.2
        = true := by
  have hmap : (splitContent bigA 3).map String.length
      = (splitContent bigB 3).map String.length :=
    splitContent_map_length bigA bigB 3 bigA_length_eq
  have hla : (splitContent bigA 3).length = 3 := splitContent_length bigA 3
  have hlb : (splitContent bigB 3).length = 3 := splitContent_length bigB 3
  have hblind := writeChunksLoop_content_blind "api.json" "op1" 0
    (splitContent bigA 3) (splitContent bigB 3) fmEmpty fmEmpty
    { pendingChunks := mapSet cmEmpty.pendingChunks "op1"
        { total := 3, completed := 0, chunks := [] } }
    0 hmap
  have hgoA : handleChunkedWrite fmEmpty cmEmpty "api.json" bigA 3 "op1" 0
      = writeChunksLoop "api.json" "op1" 0 fmEmpty
        { pendingChunks := mapSet cmEmpty.pendingChunks "op1"
            { total := 3, completed := 0, chunks := [] } }
        (splitContent bigA 3) 0 := by
    simp only [handleChunkedWrite, hla]
  have hgoB : handleChunkedWrite fmEmpty cmEmpty "api.json" bigB 3 "op1" 0
      = writeChunksLoop "api.json" "op1" 0 fmEmpty
        { pendingChunks := mapSet cmEmpty.pendingChunks "op1"
            { total := 3, completed := 0, chunks := [] } }
        (splitContent bigB 3) 0 := by
    simp only [handleChunkedWrite, hlb]
  have htrig := writeChunksLoop_trig "api.json" "op1" 0 (splitContent bigA 3)
    0 fmEmpty
    { pendingChunks := mapSet cmEmpty.pendingChunks "op1"
        { total := 3, completed := 0, chunks := [] } }
    3 0 [] (mapGet_mapSet _ _ _)
  refine ⟨bigA_ne_bigB, analyzeContent_bigA, ?_, ?_, ?_⟩
  · rw [hgoA, hgoB]
    exact hblind.1
  · rw [hgoA, hgoB]
    exact hblind.2.1
  · rw [hgoA, htrig, hla]
    decide

/-! ## Claim C10: cleanupOperation and the cached chunk entries -/

/-- The WriteResult of the only chunk of operation op9. -/
def wrChunk0 : WriteResult :=
  { path := "file.part0.txt", size := 3, cached := true, timestamp := 0 }

/-- A ChunkManager with the completed single-chunk operation op9. -/
def cmCleanup : CMState :=
  { pendingChunks := [("op9",
      { total := 1, completed := 1, chunks := [(0, wrChunk0)] })] }

/-- A file cache holding the chunk entry written for op9. -/
def fmCleanup : FMState :=
  { fileCache := [("file.part0.txt",
      { content := "abc", timestamp := 0,
        metadata := Metadata.chunkMeta "op9" 0 true })] }

/-- C10 (code bug, evaluated at the failing input): cleanupOperation
on the known operation op9 leaves the file cache completely unchanged
- the cached chunk entry file.part0.txt is still present afterwards,
even at a current time far beyond every eviction age - because the
source passes chunk.path to clearCache, whose olderThan parameter is
an age in milliseconds: ToNumber of the path is NaN and the age
comparison is always false.  Only the Operation record is discarded.
For an unknown operationId the call is a no-op, as the claim states. -/
theorem cleanupOperation_leaves_chunk_entries :
    (cleanupOperation cmCleanup fmCleanup "op9" 99999999999).2 = fmCleanup
    ∧ (cleanupOperation cmCleanup fmCleanup "op9" 99999999999).1.pendingChunks
        = []
    ∧ jsToNumber "file.part0.txt" = none
    ∧ (mapGet fmCleanup.fileCache "file.part0.txt").isSome = true
    ∧ cleanupOperation cmCleanup fmCleanup "nope" 0 = (cmCleanup, fmCleanup) := by
  decide

end PimpMyApi
